import Mathlib

/-!
Verification development for the notedown task subsystem: a shallow
embedding of the task-line parser (src/pkg/providers/tasks/parse.go),
the Task entity and its canonical serialization (the ast package file),
the task filters (src/pkg/providers/tasks/filters.go), the document
index (src/pkg/providers/tasks/client.go plus the event handlers the
spec describes), and the line-addressed mutation layer (modelled from
the spec, with its behavior pinned by the writer tests in src).

Strings are embedded as lists of characters; the parser input of the
a-h/parse library (a buffer with a cursor) is embedded as the full
character list plus a global index, so that the backward peek of the
short-key guard can be expressed.  Parsers return `Option (result and
next index)`; the one parser that can raise a hard error (priority,
through integer conversion out of range) returns a three-valued result.
-/

namespace Notedown

abbrev Chars := List Char

def charAt (s : Chars) (i : Nat) : Option Char := (s.drop i).head?

def matchAt (s : Chars) (i : Nat) (k : Chars) : Bool := k.isPrefixOf (s.drop i)

def slice (s : Chars) (i j : Nat) : Chars := (s.drop i).take (j - i)

/-- Inline whitespace characters (space and tab), as consumed by the
`InlineWhitespaceRunes` / `RemainingInlineWhitespace` helpers of the
parsers package (not under src; modelled from the spec's "inline
whitespace"). -/
def isInlineWs (c : Char) : Bool := c = ' ' || c = '\t'

/-- Number of leading inline-whitespace characters of a list. -/
def wsCount : Chars → Nat
  | [] => 0
  | c :: rest => if isInlineWs c then wsCount rest + 1 else 0

/-- Index after consuming all inline whitespace from index `i`. -/
def skipWs (s : Chars) (i : Nat) : Nat := i + wsCount (s.drop i)

/-- Number of leading decimal digits of a list (`parse.ZeroToNine` run). -/
def digCount : Chars → Nat
  | [] => 0
  | c :: rest => if c.isDigit then digCount rest + 1 else 0

/-- Numeric value of a list of decimal digits. -/
def digitsVal (cs : Chars) : Nat :=
  cs.foldl (fun a c => a * 10 + (c.toNat - 48)) 0

/-- Go's `strings.TrimSpace` on our character lists. -/
def isSpaceGo (c : Char) : Bool := c = ' ' || c = '\t' || c = '\n' || c = '\r'

def trimChars (cs : Chars) : Chars :=
  ((cs.dropWhile isSpaceGo).reverse.dropWhile isSpaceGo).reverse

/-- The scanning core of `parse.StringUntil`: the index of the first
position at or after `i` where the delimiter predicate holds, stopping
at end of input (the delimiters used in ParseTask all include
end-of-input, so the scan always succeeds). -/
def scanAux (p : Nat → Bool) : Chars → Nat → Nat
  | [], i => i
  | _ :: rest, i => if p i then i else scanAux p rest (i + 1)

def scanUntilP (p : Chars → Nat → Bool) (s : Chars) (i : Nat) : Nat :=
  scanAux (p s) (s.drop i) i

/-- `NewLineOrEOF` as a position predicate (the parsers package is not
under src; modelled from the spec: a line terminator or end of input).
End of input is handled by `scanAux` running off the list. -/
def newlineAt (s : Chars) (i : Nat) : Bool :=
  charAt s i = some '\n' || charAt s i = some '\r'

/- ------------------------------------------------------------------ -/
/- Data model: Status, Date, Recurrence, Task (ast package).          -/
/- ------------------------------------------------------------------ -/

inductive Status where
  | todo
  | blocked
  | doing
  | done
  | abandoned
deriving DecidableEq, Repr

/-- `statusLookup` from parse.go: accepted input characters. -/
def statusOf (c : Char) : Option Status :=
  if c = ' ' then some .todo
  else if c = 'x' then some .done
  else if c = 'X' then some .done
  else if c = '/' then some .doing
  else if c = 'b' then some .blocked
  else if c = 'B' then some .blocked
  else if c = 'a' then some .abandoned
  else if c = 'A' then some .abandoned
  else none

/-- `StatusRuneLookup` / the Status string constants: the canonical
serialization character of each status. -/
def statusText : Status → Chars
  | .todo => [' ']
  | .blocked => ['b']
  | .doing => ['/']
  | .done => ['x']
  | .abandoned => ['a']

/-- A calendar date, standing for the date part of a Go `time.Time`
produced by the strict `YYYY-MM-DD` parser. -/
structure Date where
  y : Nat
  m : Nat
  d : Nat
deriving DecidableEq, Repr

/-- Lexicographic order on dates: `a.lt b` models Go `a.Before(b)` for
the midnight timestamps the date parser produces. -/
def Date.lt (a b : Date) : Bool :=
  a.y < b.y || (a.y = b.y && (a.m < b.m || (a.m = b.m && a.d < b.d)))

inductive Freq where
  | yearly
  | monthly
  | weekly
  | daily
deriving DecidableEq, Repr

inductive Weekday where
  | sunday
  | monday
  | tuesday
  | wednesday
  | thursday
  | friday
  | saturday
deriving DecidableEq, Repr

/-- The fields of `rrule.ROption` that the recurrence builder sets
(`Dtstart`, the anchor, is carried through unchanged and plays no role
in the claims, so it is omitted).  Field defaults are the Go zero
values: `Freq` zero value is YEARLY, `Interval` zero value is 0.
The rrule library is an external dependency; `rrule.NewRRule` is
modelled as succeeding and recording these options. -/
structure ROpts where
  freq : Freq := .yearly
  interval : Nat := 0
  byWeekday : List Weekday := []
  byMonthDay : List Nat := []
  byMonth : List Nat := []
deriving DecidableEq, Repr

/-- The `Every` value type: the structured recurrence plus the verbatim
(trimmed) source text, kept so it can be written back out. -/
structure Every where
  opts : ROpts
  text : Chars
deriving DecidableEq, Repr

structure Identifier where
  path : String
  version : String
  line : Nat
deriving DecidableEq, Repr

/-- The Task entity (ast package). `priority` is a Go `int`, and the
optional fields are nil-able pointers, embedded as `Option`. -/
structure Task where
  identifier : Identifier
  name : Chars
  status : Status
  due : Option Date := none
  scheduled : Option Date := none
  completed : Option Date := none
  priority : Option Int := none
  every : Option Every := none
deriving DecidableEq, Repr

/- ------------------------------------------------------------------ -/
/- Canonical serialization: Task.String().                            -/
/- ------------------------------------------------------------------ -/

/-- Decimal digits of a natural number. -/
def natChars (n : Nat) : Chars := Nat.toDigits 10 n

/-- Go `fmt` rendering of an `int` value. -/
def intChars (p : Int) : Chars :=
  if p < 0 then '-' :: natChars p.natAbs else natChars p.natAbs

/-- Zero-pad on the left to width `w` (Go `time.Format` zero-padded
fields print all digits when the value is wider than the field). -/
def padZero (cs : Chars) (w : Nat) : Chars :=
  List.replicate (w - cs.length) '0' ++ cs

/-- Go `time.Format("2006-01-02")`. -/
def Date.render (dt : Date) : Chars :=
  padZero (natChars dt.y) 4 ++ ('-' :: padZero (natChars dt.m) 2)
    ++ ('-' :: padZero (natChars dt.d) 2)

/-- `Task.String()` from the ast package: the marker and status, the
name, then each set optional field appended in the source's order
(due, scheduled, priority, every, completed). -/
def Task.render (t : Task) : Chars :=
  let res := "- [".toList ++ statusText t.status ++ "] ".toList ++ t.name
  let res := match t.due with
    | some d => res ++ " due:".toList ++ d.render
    | none => res
  let res := match t.scheduled with
    | some d => res ++ " scheduled:".toList ++ d.render
    | none => res
  let res := match t.priority with
    | some p => res ++ " priority:".toList ++ intChars p
    | none => res
  let res := match t.every with
    | some e => res ++ " every:".toList ++ e.text
    | none => res
  let res := match t.completed with
    | some d => res ++ " completed:".toList ++ d.render
    | none => res
  res

/-- Claim-facing restatement, written from the spec's words alone
(spec section 4.2): the canonical serialization emits its components in
the fixed order status, name, due, scheduled, priority, every,
completed, and omits every unset optional field.  Compared against the
source-derived `Task.render` in the C7 theorem. -/
def canonicalRenderSpec (t : Task) : Chars :=
  ("- [".toList ++ statusText t.status ++ "] ".toList)
    ++ t.name
    ++ (match t.due with
        | some d => " due:".toList ++ d.render
        | none => [])
    ++ (match t.scheduled with
        | some d => " scheduled:".toList ++ d.render
        | none => [])
    ++ (match t.priority with
        | some p => " priority:".toList ++ intChars p
        | none => [])
    ++ (match t.every with
        | some e => " every:".toList ++ e.text
        | none => [])
    ++ (match t.completed with
        | some d => " completed:".toList ++ d.render
        | none => [])

/- ------------------------------------------------------------------ -/
/- The task-line parser (parse.go).                                   -/
/- ------------------------------------------------------------------ -/

/-- `statusParser`: an open bracket, one status character drawn from
the accepted set, a close bracket, and one mandatory trailing space. -/
def statusParser (s : Chars) (i : Nat) : Option (Status × Nat) :=
  match charAt s i, charAt s (i + 1), charAt s (i + 2), charAt s (i + 3) with
  | some '[', some c, some ']', some ' ' => (statusOf c).map (fun st => (st, i + 4))
  | _, _, _, _ => none

/-- `listItemOpen`: optional inline whitespace, a dash, optional inline
whitespace. -/
def listItemOpen (s : Chars) (i : Nat) : Option Nat :=
  let j := skipWs s i
  if charAt s j = some '-' then some (skipWs s (j + 1)) else none

/-- The shared key-matching prelude of dueParser, scheduledParser,
priorityParser and everyParser: dump leading inline whitespace, try the
long key, then try the short key from the resulting position, and if the
short key matched apply the guard — the character immediately preceding
the short key must be the start of the input or a space (`in.Seek(curr-3)`
failing means start of input, since the short keys are two characters
long).  Returns the index after the matched key text. -/
def fieldKey (long short : Chars) (s : Chars) (i : Nat) : Option Nat :=
  let j := skipWs s i
  let longOk := matchAt s j long
  let j1 := if longOk then j + long.length else j
  let shortOk := matchAt s j1 short
  let j2 := if shortOk then j1 + short.length else j1
  if shortOk ∧ ¬(j2 < 3 ∨ charAt s (j2 - 3) = some ' ') then none
  else if longOk ∨ shortOk then some j2 else none

/-- Exactly `n` decimal digits starting at `i`, and their value.
Helper for the strict date grammar. -/
def digitsExact (s : Chars) (i n : Nat) : Option Nat :=
  let cs := slice s i (i + n)
  if cs.length = n ∧ cs.all Char.isDigit then some (digitsVal cs) else none

/-- Modelled from the spec: `YearMonthDay` of the parsers package is
not under src; per the spec, date values use strict `YYYY-MM-DD`. -/
def yearMonthDay (s : Chars) (i : Nat) : Option (Date × Nat) :=
  match digitsExact s i 4 with
  | none => none
  | some y =>
    if charAt s (i + 4) = some '-' then
      match digitsExact s (i + 5) 2 with
      | none => none
      | some mo =>
        if charAt s (i + 7) = some '-' then
          match digitsExact s (i + 8) 2 with
          | none => none
          | some da => some (⟨y, mo, da⟩, i + 10)
        else none
    else none

/-- `dueParser`: the due key (with guard) followed by a date. -/
def dueFieldP (s : Chars) (i : Nat) : Option (Date × Nat) :=
  match fieldKey "due:".toList "d:".toList s i with
  | none => none
  | some j => yearMonthDay s j

/-- `scheduledParser`. -/
def scheduledFieldP (s : Chars) (i : Nat) : Option (Date × Nat) :=
  match fieldKey "scheduled:".toList "s:".toList s i with
  | none => none
  | some j => yearMonthDay s j

/-- `completedParser`: only the one long key, no whitespace dump, no
guard. -/
def completedFieldP (s : Chars) (i : Nat) : Option (Date × Nat) :=
  if matchAt s i "completed:".toList then yearMonthDay s (i + 10) else none

/-- Three-valued parser result for the one parser that can raise a hard
error. -/
inductive PRes (α : Type) where
  | ok (a : α) (next : Nat)
  | noMatch
  | err
deriving DecidableEq, Repr

/-- `priorityParser`: the priority key (with guard), then one or more
decimal digits.  Missing digits is a no-match (`ok=false, err=nil` in
the source), not a hard error; the hard error arises only from
`strconv.Atoi` failing, which on an all-digit string means the value is
out of Go's 64-bit int range. -/
def priorityFieldP (s : Chars) (i : Nat) : PRes Int :=
  match fieldKey "priority:".toList "p:".toList s i with
  | none => .noMatch
  | some j =>
    let k := j + digCount (s.drop j)
    if k = j then .noMatch
    else
      let v := digitsVal (slice s j k)
      if v ≤ 9223372036854775807 then .ok (Int.ofNat v) k else .err

/- The recurrence value micro-grammar (the body of `everyParser` after
the key). -/

/-- First match wins among a list of literal words, returning the
matched text. -/
def wordAlt (ws : List Chars) (s : Chars) (i : Nat) : Option (Chars × Nat) :=
  match ws with
  | [] => none
  | w :: rest => if matchAt s i w then some (w, i + w.length) else wordAlt rest s i

/-- Modelled from the spec: the `Day`/`Week`/`Month`/`Year` word
parsers of the parsers package are not under src; each accepts the
plural or the singular unit word (plural first, so the plural is
consumed fully) and yields the matched text. -/
def dayWords : List Chars := ["days".toList, "day".toList]

def weekWords : List Chars := ["weeks".toList, "week".toList]

def monthWords : List Chars := ["months".toList, "month".toList]

def yearWords : List Chars := ["years".toList, "year".toList]

/-- The single-word branch alternatives, in the source's order:
Day, "weekend", "weekday", Month, Year, Week (order matters, as "week"
is a prefix of "weekday" and "weekend"). -/
def singleWord (s : Chars) (i : Nat) : Option (Chars × Nat) :=
  wordAlt (dayWords ++ ["weekend".toList, "weekday".toList]
    ++ monthWords ++ yearWords ++ weekWords) s i

/-- The switch over the matched single word.  A word not among the six
cases (for instance the plural "days") leaves the options unchanged,
exactly like the Go switch with no default case. -/
def applySingle (w : Chars) (o : ROpts) : ROpts :=
  if w = "day".toList then { o with freq := .daily }
  else if w = "week".toList then { o with freq := .weekly }
  else if w = "month".toList then { o with freq := .monthly }
  else if w = "year".toList then { o with freq := .yearly }
  else if w = "weekday".toList then
    { o with freq := .weekly,
             byWeekday := [.monday, .tuesday, .wednesday, .thursday, .friday] }
  else if w = "weekend".toList then { o with freq := .weekly, byWeekday := [.saturday] }
  else o

/-- Modelled from the spec: the `DaysOfWeek` leaf of the parsers
package is not under src; a weekday is a full name or a three-letter
short form. -/
def weekdayTable : List (Chars × Weekday) :=
  [("sunday".toList, .sunday), ("monday".toList, .monday),
   ("tuesday".toList, .tuesday), ("wednesday".toList, .wednesday),
   ("thursday".toList, .thursday), ("friday".toList, .friday),
   ("saturday".toList, .saturday),
   ("sun".toList, .sunday), ("mon".toList, .monday), ("tue".toList, .tuesday),
   ("wed".toList, .wednesday), ("thu".toList, .thursday), ("fri".toList, .friday),
   ("sat".toList, .saturday)]

def tableLookup {α : Type} (tbl : List (Chars × α)) (s : Chars) (i : Nat) :
    Option (α × Nat) :=
  match tbl with
  | [] => none
  | (w, v) :: rest =>
    if matchAt s i w then some (v, i + w.length) else tableLookup rest s i

def weekdayName (s : Chars) (i : Nat) : Option (Weekday × Nat) :=
  tableLookup weekdayTable s i

/-- Number of leading list-separator characters (comma or space). -/
def sepCount : Chars → Nat
  | [] => 0
  | c :: rest => if c = ',' || c = ' ' then sepCount rest + 1 else 0

/-- Modelled from the spec: one or more weekday names separated by
comma/space separators; the fuel bound exceeds the number of loop steps
(every continuing step consumes at least one character), so it never
runs out. -/
def daysOfWeekAux : Nat → Chars → Nat → List Weekday → (List Weekday × Nat)
  | 0, _, i, acc => (acc, i)
  | fuel + 1, s, i, acc =>
    let k := i + sepCount (s.drop i)
    if k = i then (acc, i)
    else
      match weekdayName s k with
      | some (d, k2) => daysOfWeekAux fuel s k2 (acc ++ [d])
      | none => (acc, i)

def daysOfWeek (s : Chars) (i : Nat) : Option (List Weekday × Nat) :=
  match weekdayName s i with
  | none => none
  | some (d, j) => some (daysOfWeekAux (s.length + 1) s j [d])

/-- The `<positive integer> <unit>` branch: `SequenceOf3` of a digit
run, a single space, and a unit word (Day, Week, Month, Year, in that
order). -/
def intervalUnit (s : Chars) (i : Nat) : Option ((Nat × Chars) × Nat) :=
  let k := i + digCount (s.drop i)
  if k = i then none
  else if charAt s k = some ' ' then
    match wordAlt (dayWords ++ weekWords ++ monthWords ++ yearWords) s (k + 1) with
    | some (u, j) => some ((digitsVal (slice s i k), u), j)
    | none => none
  else none

/-- The switch over the matched unit word. -/
def applyUnit (u : Chars) (o : ROpts) : ROpts :=
  if u = "day".toList ∨ u = "days".toList then { o with freq := .daily }
  else if u = "week".toList ∨ u = "weeks".toList then { o with freq := .weekly }
  else if u = "month".toList ∨ u = "months".toList then { o with freq := .monthly }
  else if u = "year".toList ∨ u = "years".toList then { o with freq := .yearly }
  else o

/-- `strconv.Atoi` with the error ignored, as in the interval
assignment: on a digit string it yields the value, saturated at the
64-bit bound when out of range. -/
def atoiClamp (v : Nat) : Nat := min v 9223372036854775807

/-- Modelled from the spec: `MonthDay` of the parsers package is not
under src; a month-day is a run of digits whose value lies in 1..31. -/
def monthDayP (s : Chars) (i : Nat) : Option (Nat × Nat) :=
  let k := i + digCount (s.drop i)
  if k = i then none
  else
    let v := digitsVal (slice s i k)
    if 1 ≤ v ∧ v ≤ 31 then some (v, k) else none

/-- Modelled from the spec: `MonthOfYear` of the parsers package is not
under src; a month is a full month name or a three-letter short form,
yielding its number 1..12. -/
def monthTable : List (Chars × Nat) :=
  [("january".toList, 1), ("february".toList, 2), ("march".toList, 3),
   ("april".toList, 4), ("may".toList, 5), ("june".toList, 6),
   ("july".toList, 7), ("august".toList, 8), ("september".toList, 9),
   ("october".toList, 10), ("november".toList, 11), ("december".toList, 12),
   ("jan".toList, 1), ("feb".toList, 2), ("mar".toList, 3), ("apr".toList, 4),
   ("jun".toList, 6), ("jul".toList, 7), ("aug".toList, 8), ("sep".toList, 9),
   ("oct".toList, 10), ("nov".toList, 11), ("dec".toList, 12)]

def monthOfYearP (s : Chars) (i : Nat) : Option (Nat × Nat) :=
  tableLookup monthTable s i

/-- `parse.Optional(parse.Rune(' '))`: consume at most one space. -/
def optSpace (s : Chars) (i : Nat) : Nat :=
  if charAt s i = some ' ' then i + 1 else i

/-- The greedy alternating month-day / month-name loop: per iteration,
an optional space delimiter, a month-day attempt, another optional
delimiter, a month-name attempt; break when neither matched.  The fuel
bound exceeds the possible number of iterations (every continuing
iteration consumes at least one character), so it never runs out. -/
def monthScanF : Nat → Chars → Nat → List Nat → List Nat → (List Nat × List Nat × Nat)
  | 0, _, i, ds, ms => (ds, ms, i)
  | fuel + 1, s, i, ds, ms =>
    let i1 := optSpace s i
    match monthDayP s i1 with
    | some (dv, i2) =>
      let i3 := optSpace s i2
      match monthOfYearP s i3 with
      | some (mv, i4) => monthScanF fuel s i4 (ds ++ [dv]) (ms ++ [mv])
      | none => monthScanF fuel s i3 (ds ++ [dv]) ms
    | none =>
      let i3 := optSpace s i1
      match monthOfYearP s i3 with
      | some (mv, i4) => monthScanF fuel s i4 ds (ms ++ [mv])
      | none => (ds, ms, i3)

def monthScan (s : Chars) (i : Nat) : List Nat × List Nat × Nat :=
  monthScanF (s.length + 1) s i [] []

/-- The recurrence value grammar, tried as exactly one of, first match
wins: (a) a single bare word, (b) one or more weekday names, (c)
`<integer> <unit>`, (d) the alternating month-day / month-name scan
with the `byMonthDay` default of 1 when only months were found. -/
def parseEveryValue (s : Chars) (i : Nat) : Option (ROpts × Nat) :=
  let o : ROpts := {}
  match singleWord s i with
  | some (w, j) => some (applySingle w o, j)
  | none =>
    match daysOfWeek s i with
    | some (ds, j) => some ({ o with freq := .weekly, byWeekday := ds }, j)
    | none =>
      match intervalUnit s i with
      | some ((n, u), j) => some ({ applyUnit u o with interval := atoiClamp n }, j)
      | none =>
        let (ds, ms, j) := monthScan s i
        if ds.isEmpty ∧ ms.isEmpty then none
        else
          some ({ o with byMonthDay := if ds.isEmpty then [1] else ds,
                         byMonth := ms }, j)

/-- `everyParser`: the every key (with guard), then the recurrence
value; the `buildResult` closure records the original text between the
position right after the key and the position where the matched branch
stopped, trimmed. -/
def everyFieldP (s : Chars) (i : Nat) : Option (Every × Nat) :=
  match fieldKey "every:".toList "e:".toList s i with
  | none => none
  | some j =>
    match parseEveryValue s j with
    | none => none
    | some (o, k) => some ({ opts := o, text := trimChars (slice s j k) }, k)

/-- The recurrence builder the spec calls `ParseRecurrence(text,
anchor)`: the value grammar applied to the whole text with the verbatim
trimmed source text recorded (the anchor only seeds `Dtstart`, which is
omitted from the model). -/
def parseRecurrence (text : Chars) : Option Every :=
  match parseEveryValue text 0 with
  | none => none
  | some (o, k) => some { opts := o, text := trimChars (text.take k) }

/- Key-occurrence predicates for the StringUntil scans in ParseTask.
Each key is the alternation of its long and short spelling; the name
scan stops at any of the five field keys. -/

def dueKeyAt (s : Chars) (i : Nat) : Bool :=
  matchAt s i "due:".toList || matchAt s i "d:".toList

def scheduledKeyAt (s : Chars) (i : Nat) : Bool :=
  matchAt s i "scheduled:".toList || matchAt s i "s:".toList

def completedKeyAt (s : Chars) (i : Nat) : Bool :=
  matchAt s i "completed:".toList

def everyKeyAt (s : Chars) (i : Nat) : Bool :=
  matchAt s i "every:".toList || matchAt s i "e:".toList

def priorityKeyAt (s : Chars) (i : Nat) : Bool :=
  matchAt s i "priority:".toList || matchAt s i "p:".toList

def anyFieldKeyAt (s : Chars) (i : Nat) : Bool :=
  dueKeyAt s i || scheduledKeyAt s i || everyKeyAt s i || priorityKeyAt s i
    || completedKeyAt s i

def keyOrNl (keyAt : Chars → Nat → Bool) (s : Chars) (i : Nat) : Bool :=
  keyAt s i || newlineAt s i

/-- Consume the line terminator, if any (`NewLineOrEOF` at the end of
ParseTask). -/
def consumeNl (s : Chars) (i : Nat) : Nat :=
  if charAt s i = some '\r' ∧ charAt s (i + 1) = some '\n' then i + 2
  else if charAt s i = some '\n' ∨ charAt s i = some '\r' then i + 1
  else i

/-- `ParseTask`: the list-item open and status bracket (no match if
absent), the name up to the first field key or end of line, then each
field searched independently from the same start position — a scan
forward to the field's key (or end of line) followed by that field's
parser; a field whose parser reports no match is simply absent.  A hard
error from the priority parser aborts the whole task.  Finally the rest
of the physical line is discarded. -/
def parseTask (path version : String) (line : Nat) (s : Chars) : PRes Task :=
  match listItemOpen s 0 with
  | none => .noMatch
  | some i1 =>
    match statusParser s i1 with
    | none => .noMatch
    | some (status, i2) =>
      let nameEnd := scanUntilP (keyOrNl anyFieldKeyAt) s i2
      let name := trimChars (slice s i2 nameEnd)
      let start := nameEnd
      let due := (dueFieldP s (scanUntilP (keyOrNl dueKeyAt) s start)).map Prod.fst
      let scheduled :=
        (scheduledFieldP s (scanUntilP (keyOrNl scheduledKeyAt) s start)).map Prod.fst
      let completed :=
        (completedFieldP s (scanUntilP (keyOrNl completedKeyAt) s start)).map Prod.fst
      match priorityFieldP s (scanUntilP (keyOrNl priorityKeyAt) s start) with
      | .err => .err
      | pr =>
        let priority : Option Int := match pr with | .ok p _ => some p | _ => none
        let every := (everyFieldP s (scanUntilP (keyOrNl everyKeyAt) s start)).map Prod.fst
        let lineEnd := scanUntilP (fun s j => newlineAt s j) s start
        .ok { identifier := ⟨path, version, line⟩, name := name, status := status,
              due := due, scheduled := scheduled, completed := completed,
              priority := priority, every := every } (consumeNl s lineEnd)

/- ------------------------------------------------------------------ -/
/- Task filters (filters.go).                                         -/
/- ------------------------------------------------------------------ -/

/-- `FilterByDueDate(after, before)`: a task with no due date is
excluded; otherwise excluded when due is before `after` or after
`before` (bounds inclusive, each only checked when non-nil). -/
def filterByDueDate (after before : Option Date) (t : Task) : Bool :=
  match t.due with
  | none => false
  | some d =>
    if (match after with | some a => Date.lt d a | none => false) then false
    else if (match before with | some b => Date.lt b d | none => false) then false
    else true

/-- `FilterByCompletedDate(after, before)`: same shape on the
completed date. -/
def filterByCompletedDate (after before : Option Date) (t : Task) : Bool :=
  match t.completed with
  | none => false
  | some d =>
    if (match after with | some a => Date.lt d a | none => false) then false
    else if (match before with | some b => Date.lt b d | none => false) then false
    else true

/- ------------------------------------------------------------------ -/
/- The document index (client.go and the event handlers).             -/
/- ------------------------------------------------------------------ -/

/-- A document's bucket: line number to task. -/
abbrev Bucket := List (Nat × Task)

/-- The index `tasks map[string]map[int]Task` of the Client, embedded
as an association list with unique path keys. -/
abbrev Index := List (String × Bucket)

/-- Map-overwrite of one path's bucket: remove any existing entry for
the path and add the new one. -/
def replaceBucket (idx : Index) (path : String) (b : Bucket) : Index :=
  idx.filter (fun e => !(e.1 == path)) ++ [(path, b)]

def deleteBucket (idx : Index) (path : String) : Index :=
  idx.filter (fun e => !(e.1 == path))

/-- An inbound document event for the index: load/change carry the
tasks parsed from the document (one per line at most, so the line keys
are distinct) and whether the document carries the expected
document-type marker; delete carries the path. -/
inductive DocEvent where
  | load (path : String) (inScope : Bool) (b : Bucket)
  | change (path : String) (inScope : Bool) (b : Bucket)
  | delete (path : String)

/-- Modelled from the spec: the tasks client's `onLoad`/`onChange`/
`onDelete` event handlers are not under src (the daily provider's
handlers in src show the same pattern); per spec section 4.3 a
load/change event for an in-scope document replaces the path's entire
bucket, an out-of-scope document is ignored, and a delete removes the
bucket. -/
def step (idx : Index) : DocEvent → Index
  | .load p ok b => if ok then replaceBucket idx p b else idx
  | .change p ok b => if ok then replaceBucket idx p b else idx
  | .delete p => deleteBucket idx p

def run (es : List DocEvent) (idx : Index) : Index := es.foldl step idx

/-- `Client.Summary()`: the total task count, summed as the length of
each document's bucket. -/
def summary (idx : Index) : Nat := (idx.map (fun e => e.2.length)).sum

/-- All tasks stored at a given (path, line) pair. -/
def tasksAt (idx : Index) (p : String) (l : Nat) : List Task :=
  (idx.filter (fun e => e.1 == p)).flatMap
    (fun e => (e.2.filter (fun x => x.1 == l)).map Prod.snd)

/-- The bucket invariant: line keys are distinct (parsing produces at
most one task per line). -/
def bucketWF (b : Bucket) : Prop := (b.map Prod.fst).Nodup

instance (b : Bucket) : Decidable (bucketWF b) := by
  unfold bucketWF; infer_instance

/-- Well-formedness of an event: the bucket it carries has distinct
line keys. -/
def eventWF : DocEvent → Prop
  | .load _ _ b => bucketWF b
  | .change _ _ b => bucketWF b
  | .delete _ => True

instance (e : DocEvent) : Decidable (eventWF e) := by
  cases e <;> (unfold eventWF; infer_instance)

/-- The index invariant: path keys are distinct and every bucket has
distinct line keys. -/
def indexWF (idx : Index) : Prop :=
  (idx.map Prod.fst).Nodup ∧ ∀ e ∈ idx, bucketWF e.2

instance (idx : Index) : Decidable (indexWF idx) := by
  unfold indexWF; infer_instance

/- ------------------------------------------------------------------ -/
/- The line-addressed mutation layer (fileserver writer).             -/
/- ------------------------------------------------------------------ -/

/-- A mutation position: one of the two sentinels, or an absolute file
line number (1-indexed; the writer tests address lines of the whole
file and get an error for lines inside the front matter). -/
inductive MPos where
  | beginning
  | atEnd
  | line (n : Nat)
deriving DecidableEq, Repr

inductive MOp where
  | add (text : String)
  | update (text : String)
  | remove
deriving DecidableEq, Repr

/-- The mutation layer's view of the file on disk: the non-addressable
front-matter preamble, the addressable body and the current content
version (checksum). -/
structure MDoc where
  pre : List String
  body : List String
  version : String
deriving DecidableEq, Repr

inductive MErr where
  | stale
  | outOfRange
  | frontmatterProtected
  | needLineNumber
deriving DecidableEq, Repr

/-- Modelled from the spec: the optimistic-concurrency check of the
writer (not under src; behavior pinned by TestLines_StaleWrites).  An
empty expected version skips the check, but only for the sentinel
positions; an operation addressed to a specific line number requires a
valid (non-empty) matching version. -/
def versionOk (d : MDoc) (expected : String) (p : MPos) : Bool :=
  match p with
  | .beginning => expected == "" || expected == d.version
  | .atEnd => expected == "" || expected == d.version
  | .line _ => !(expected == "") && expected == d.version

def insertAt (l : List String) (k : Nat) (t : String) : List String :=
  l.take k ++ [t] ++ l.drop k

def setAt (l : List String) (k : Nat) (t : String) : List String :=
  l.take k ++ [t] ++ l.drop (k + 1)

def removeAt (l : List String) (k : Nat) : List String :=
  l.take k ++ l.drop (k + 1)

/-- Modelled from the spec: the writer's line mutation (`AddLine`,
`UpdateLine`, `RemoveLine`; not under src, behavior pinned by the
TestLines tests).  The version is validated first; a line number inside
the preamble (or 0) is never addressable; update/remove past the end is
out of range with no write; add past the end clamps to append; the
sentinels resolve to just after the preamble and to the end.  The
result is the new file content (so an error performs no write). -/
def mutate (d : MDoc) (expected : String) (op : MOp) (p : MPos) :
    Except MErr (List String) :=
  if !(versionOk d expected p) then .error .stale
  else
    match op, p with
    | .add t, .beginning => .ok (d.pre ++ [t] ++ d.body)
    | .add t, .atEnd => .ok (d.pre ++ d.body ++ [t])
    | .add t, .line n =>
      if n ≤ d.pre.length then .error .frontmatterProtected
      else .ok (d.pre ++ insertAt d.body (min (n - 1 - d.pre.length) d.body.length) t)
    | .update t, .line n =>
      if n ≤ d.pre.length then .error .frontmatterProtected
      else if d.pre.length + d.body.length < n then .error .outOfRange
      else .ok (d.pre ++ setAt d.body (n - 1 - d.pre.length) t)
    | .update _, _ => .error .needLineNumber
    | .remove, .line n =>
      if n ≤ d.pre.length then .error .frontmatterProtected
      else if d.pre.length + d.body.length < n then .error .outOfRange
      else .ok (d.pre ++ removeAt d.body (n - 1 - d.pre.length))
    | .remove, _ => .error .needLineNumber

/- ------------------------------------------------------------------ -/
/- Concrete sample values used by the claim theorems and witnesses.   -/
/- ------------------------------------------------------------------ -/

/-- A task with both a due date and a recurrence (buildable through the
entity's `WithDue`/`WithEvery` options). -/
def dueEveryTask : Task :=
  { identifier := ⟨"notes.md", "v1", 1⟩, name := "t".toList,
    status := .todo, due := some ⟨2024, 1, 2⟩,
    every := some { opts := { freq := .daily }, text := "day".toList } }

/-- What `ParseTask` actually produces on the canonical serialization
of `dueEveryTask`: the same task with the `every` field lost. -/
def dueEveryReparsed : Task :=
  { identifier := ⟨"notes.md", "v1", 1⟩, name := "t".toList,
    status := .todo, due := some ⟨2024, 1, 2⟩ }

/-- A sample task used as an index value and filter subject. -/
def plainTask : Task :=
  { identifier := ⟨"a.md", "v", 3⟩, name := "n".toList, status := .doing }

/-- A sample event sequence for the index witness. -/
def sampleEvents : List DocEvent :=
  [.load "a.md" true [(3, plainTask), (5, plainTask)],
   .change "a.md" true [(3, plainTask)],
   .load "b.md" true [(1, plainTask)],
   .load "c.md" false [(1, plainTask), (2, plainTask)],
   .delete "b.md"]

/-- A sample document for the mutation witnesses. -/
def sampleDoc : MDoc :=
  { pre := ["---", "type: note", "---"], body := ["alpha", "beta"], version := "h1" }

/- ------------------------------------------------------------------ -/
/- Theorems.                                                          -/
/- ------------------------------------------------------------------ -/

/-- C7: canonical serialization order — for every Task, `Task.String()`
emits its components in the fixed order status, name, due, scheduled,
priority, every, completed, and omits every unset optional field.
Being a function of the Task value alone, the output is independent of
the order fields appeared in the original source line.  Stated as the
equality of the source-derived renderer with the spec-side canonical
form. -/
theorem C7_render_canonical_order (t : Task) :
    Task.render t = canonicalRenderSpec t := by
  unfold Task.render canonicalRenderSpec
  cases t.due <;> cases t.scheduled <;> cases t.priority <;> cases t.every <;>
    cases t.completed <;> simp [List.append_assoc]

/-- C7 witness: the canonical order equality evaluated at a concrete
task. -/
theorem C7_witness :
    Task.render dueEveryTask = canonicalRenderSpec dueEveryTask :=
  C7_render_canonical_order dueEveryTask

/-- C10: an unbounded date filter is not a no-op — for every task with
no due date, `FilterByDueDate` excludes it for all bounds (including
both bounds nil), and likewise `FilterByCompletedDate` excludes every
task with no completed date. -/
theorem C10_dateless_tasks_filtered_out (after before : Option Date) (t u : Task) :
    (t.due = none → filterByDueDate after before t = false) ∧
    (u.completed = none → filterByCompletedDate after before u = false) := by
  constructor
  · intro h
    unfold filterByDueDate
    rw [h]
  · intro h
    unfold filterByCompletedDate
    rw [h]

/-- C10 witness: both filters evaluated at a concrete task with
neither date, with nil bounds and with a bound set. -/
theorem C10_witness :
    (filterByDueDate none none plainTask = false) ∧
    (filterByCompletedDate (some ⟨2024, 1, 1⟩) none plainTask = false) :=
  ⟨(C10_dateless_tasks_filtered_out none none plainTask plainTask).1 rfl,
   (C10_dateless_tasks_filtered_out (some ⟨2024, 1, 1⟩) none plainTask plainTask).2 rfl⟩

/-- C5: single-word recurrence mapping — "weekend" yields weekly on
Saturday only (Sunday excluded), "weekday" weekly on Monday..Friday,
and "day"/"week"/"month"/"year" yield daily/weekly/monthly/yearly with
no byWeekday set; each records its verbatim source text. -/
theorem C5_single_word_recurrences :
    parseRecurrence "weekend".toList =
      some { opts := { freq := .weekly, byWeekday := [.saturday] },
             text := "weekend".toList } ∧
    parseRecurrence "weekday".toList =
      some { opts := { freq := .weekly,
                       byWeekday := [.monday, .tuesday, .wednesday, .thursday, .friday] },
             text := "weekday".toList } ∧
    parseRecurrence "day".toList =
      some { opts := { freq := .daily }, text := "day".toList } ∧
    parseRecurrence "week".toList =
      some { opts := { freq := .weekly }, text := "week".toList } ∧
    parseRecurrence "month".toList =
      some { opts := { freq := .monthly }, text := "month".toList } ∧
    parseRecurrence "year".toList =
      some { opts := { freq := .yearly }, text := "year".toList } := by
  decide

/-- C6: in the month-day/month-name scan branch of the recurrence
grammar, whenever the alternating scan consumed at least one month-day
or month name (and the earlier branches did not match), a recurrence is
produced with the accumulated byMonthDay/byMonth sets, defaulting
byMonthDay to 1 when only months were found. -/
theorem C6_month_scan_branch (s : Chars) (i : Nat) (ds ms : List Nat) (j : Nat)
    (ha : singleWord s i = none) (hb : daysOfWeek s i = none)
    (hc : intervalUnit s i = none) (hscan : monthScan s i = (ds, ms, j))
    (hne : ds ≠ [] ∨ ms ≠ []) :
    parseEveryValue s i =
      some ({ byMonthDay := if ds.isEmpty then [1] else ds, byMonth := ms }, j) := by
  unfold parseEveryValue
  rw [ha, hb, hc, hscan]
  have hcond : ¬(ds.isEmpty ∧ ms.isEmpty) := by
    rintro ⟨h1, h2⟩
    rw [List.isEmpty_iff] at h1 h2
    rcases hne with h | h
    · exact h h1
    · exact h h2
  simp only [if_neg hcond]

/-- C6 witness: "march" alone yields byMonth 3 with byMonthDay
defaulted to 1. -/
theorem C6_witness :
    parseEveryValue "march".toList 0 = some ({ byMonthDay := [1], byMonth := [3] }, 5) := by
  have h := C6_month_scan_branch "march".toList 0 [] [3] 5 (by decide) (by decide)
    (by decide) (by decide) (Or.inr (by decide))
  simpa using h

/-- C1: round-trip failure evaluated on the code — for the task with
both a due date and a recurrence, parsing the canonical serialization
does not yield the task back: the serialization places `due:` before
`every:`, the every-field scan stops at the `e:` inside
`due:2024-01-02`, the short-key guard rejects that match without the
scan ever resuming, and the reparsed task has lost its `every` field
(whose verbatim text was to be preserved). -/
theorem C1_roundtrip_counterexample :
    Task.render dueEveryTask = "- [ ] t due:2024-01-02 every:day".toList ∧
    parseTask "notes.md" "v1" 1 (Task.render dueEveryTask) = .ok dueEveryReparsed 32 ∧
    dueEveryReparsed.every = none ∧
    dueEveryTask.every ≠ none ∧
    dueEveryReparsed ≠ dueEveryTask := by
  decide

/-- C2 counterexample: the claim says a priority key with a non-digit
value clause makes the whole task line fail to parse; in fact
`"- [ ] t priority:abc"` parses successfully, yielding the task with
the priority field simply absent. -/
theorem C2_counterexample_malformed_priority_parses :
    parseTask "p" "v" 1 "- [ ] t priority:abc".toList =
      .ok { identifier := ⟨"p", "v", 1⟩, name := "t".toList, status := .todo } 20 := by
  decide

/-- C2 amended: a recognized priority key whose value clause is not
one or more decimal digits makes the priority parser report no-match
(never a hard error), so ParseTask treats the priority field as absent
and still parses the task line — shown in general for the priority
parser, and for ParseTask on the spec's two examples
(`"priority:abc"` and a bare `"priority:"`). -/
theorem C2_amended_malformed_priority_absent (s : Chars) (i j : Nat)
    (hk : fieldKey "priority:".toList "p:".toList s i = some j)
    (hd : digCount (s.drop j) = 0) :
    priorityFieldP s i = .noMatch ∧
    parseTask "p" "v" 1 "- [ ] t priority:abc".toList =
      .ok { identifier := ⟨"p", "v", 1⟩, name := "t".toList, status := .todo } 20 ∧
    parseTask "p" "v" 1 "- [ ] t priority:".toList =
      .ok { identifier := ⟨"p", "v", 1⟩, name := "t".toList, status := .todo } 17 := by
  refine ⟨?_, by decide, by decide⟩
  unfold priorityFieldP
  rw [hk]
  dsimp only
  rw [hd]
  simp

/-- C2 amended witness: the no-match result applied at the concrete
input `"priority:abc"`. -/
theorem C2_witness :
    priorityFieldP "priority:abc".toList 0 = .noMatch ∧
    parseTask "p" "v" 1 "- [ ] t priority:abc".toList =
      .ok { identifier := ⟨"p", "v", 1⟩, name := "t".toList, status := .todo } 20 ∧
    parseTask "p" "v" 1 "- [ ] t priority:".toList =
      .ok { identifier := ⟨"p", "v", 1⟩, name := "t".toList, status := .todo } 17 :=
  C2_amended_malformed_priority_absent "priority:abc".toList 0 9 (by decide) (by decide)

/-- C3: the short-key suffix guard — when a short field-key spelling
(`d:`, `s:`, `p:`, `e:`) matches at a position (and the long spelling
does not), but the character immediately preceding it is neither the
start of the input nor a space, the key match is rejected and the
field parser reports no match at that position. -/
theorem C3_short_key_guard (long short : Chars) (s : Chars) (i : Nat)
    (hlen : short.length = 2)
    (hL : matchAt s (skipWs s i) long = false)
    (hS : matchAt s (skipWs s i) short = true)
    (h0 : skipWs s i ≠ 0)
    (hsp : ¬charAt s (skipWs s i - 1) = some ' ') :
    fieldKey long short s i = none ∧
    (long = "due:".toList → short = "d:".toList → dueFieldP s i = none) ∧
    (long = "scheduled:".toList → short = "s:".toList → scheduledFieldP s i = none) ∧
    (long = "priority:".toList → short = "p:".toList → priorityFieldP s i = .noMatch) ∧
    (long = "every:".toList → short = "e:".toList → everyFieldP s i = none) := by
  have main : fieldKey long short s i = none := by
    unfold fieldKey
    simp only [hL, hS, hlen, Bool.false_eq_true, if_false, if_true]
    have h23 : ¬(skipWs s i + 2 < 3) := by omega
    have hsub : skipWs s i + 2 - 3 = skipWs s i - 1 := by omega
    rw [hsub]
    rw [if_pos]
    exact ⟨trivial, fun h => h.elim h23 hsp⟩
  refine ⟨main, ?_, ?_, ?_, ?_⟩
  · intro e1 e2
    unfold dueFieldP
    rw [← e1, ← e2, main]
  · intro e1 e2
    unfold scheduledFieldP
    rw [← e1, ← e2, main]
  · intro e1 e2
    unfold priorityFieldP
    rw [← e1, ← e2, main]
  · intro e1 e2
    unfold everyFieldP
    rw [← e1, ← e2, main]

/-- C3 witness: the `d:` inside "food:" is rejected (preceded by 'o'),
so the due field parser reports no match there. -/
theorem C3_witness :
    fieldKey "due:".toList "d:".toList "food:2024-01-01".toList 3 = none ∧
    dueFieldP "food:2024-01-01".toList 3 = none := by
  have h := C3_short_key_guard "due:".toList "d:".toList "food:2024-01-01".toList 3
    (by decide) (by decide) (by decide) (by decide) (by decide)
  exact ⟨h.1, h.2.1 rfl rfl⟩

/-- C4: mutation staleness rules — an empty expected version skips the
version check only for operations addressed at the BEGINNING or END
sentinels (such an Add succeeds regardless of the document's current
version), while any Add, Update or Remove addressed to a specific line
number with an empty or stale expected version fails with an error,
producing no new content (no write). -/
theorem C4_staleness_rules (d : MDoc) (t : String) (n : Nat) (v : String)
    (hv : v = "" ∨ v ≠ d.version) :
    (∃ b, mutate d "" (.add t) .beginning = .ok b) ∧
    (∃ b, mutate d "" (.add t) .atEnd = .ok b) ∧
    mutate d v (.add t) (.line n) = .error .stale ∧
    mutate d v (.update t) (.line n) = .error .stale ∧
    mutate d v .remove (.line n) = .error .stale := by
  have hline : versionOk d v (.line n) = false := by
    unfold versionOk
    rcases hv with h | h
    · simp [h]
    · simp [h]
  refine ⟨⟨d.pre ++ [t] ++ d.body, ?_⟩, ⟨d.pre ++ d.body ++ [t], ?_⟩, ?_, ?_, ?_⟩
  · simp [mutate, versionOk]
  · simp [mutate, versionOk]
  · simp [mutate, hline]
  · simp [mutate, hline]
  · simp [mutate, hline]

/-- C4 witness: the staleness rules at a concrete document with a
stale version string. -/
theorem C4_witness :
    (∃ b, mutate sampleDoc "" (.add "x") .beginning = .ok b) ∧
    (∃ b, mutate sampleDoc "" (.add "x") .atEnd = .ok b) ∧
    mutate sampleDoc "stale" (.add "x") (.line 4) = .error .stale ∧
    mutate sampleDoc "stale" (.update "x") (.line 4) = .error .stale ∧
    mutate sampleDoc "stale" .remove (.line 4) = .error .stale :=
  C4_staleness_rules sampleDoc "x" 4 "stale" (Or.inr (by decide))

/-- C8: with a valid matching version, an Add addressed past the end of
the addressable range does not error — it appends at the end, with the
same result as addressing END — while Update and Remove addressed past
the end fail with an out-of-range error and produce no new content. -/
theorem C8_add_clamps_past_end (d : MDoc) (t : String) (n : Nat)
    (hver : d.version ≠ "")
    (hn : d.pre.length + d.body.length < n) :
    mutate d d.version (.add t) (.line n) = mutate d d.version (.add t) .atEnd ∧
    (∃ b, mutate d d.version (.add t) (.line n) = .ok b) ∧
    mutate d d.version (.update t) (.line n) = .error .outOfRange ∧
    mutate d d.version .remove (.line n) = .error .outOfRange := by
  have hok : versionOk d d.version (.line n) = true := by
    unfold versionOk
    simp [hver]
  have hpre : ¬(n ≤ d.pre.length) := by omega
  have hmin : min (n - 1 - d.pre.length) d.body.length = d.body.length := by omega
  have hins : insertAt d.body d.body.length t = d.body ++ [t] := by
    unfold insertAt
    simp
  refine ⟨?_, ⟨d.pre ++ (d.body ++ [t]), ?_⟩, ?_, ?_⟩ <;>
    simp [mutate, versionOk, hver, hpre, hmin, hins, hn, not_lt_of_ge (le_of_lt hn)]

/-- C8 witness: the clamp and out-of-range behavior at a concrete
document and a far line number. -/
theorem C8_witness :
    mutate sampleDoc "h1" (.add "x") (.line 99) = mutate sampleDoc "h1" (.add "x") .atEnd ∧
    (∃ b, mutate sampleDoc "h1" (.add "x") (.line 99) = .ok b) ∧
    mutate sampleDoc "h1" (.update "x") (.line 99) = .error .outOfRange ∧
    mutate sampleDoc "h1" .remove (.line 99) = .error .outOfRange :=
  C8_add_clamps_past_end sampleDoc "x" 99 (by decide) (by decide)

/- Supporting lemmas for the index invariant. -/

theorem filter_key_len_le_one {α β : Type} [BEq α] [LawfulBEq α]
    (xs : List (α × β)) (k : α) (h : (xs.map Prod.fst).Nodup) :
    (xs.filter (fun e => e.1 == k)).length ≤ 1 := by
  induction xs with
  | nil => simp
  | cons x rest ih =>
    simp only [List.map_cons, List.nodup_cons] at h
    by_cases hx : x.1 = k
    · have hrest : rest.filter (fun e => e.1 == k) = [] := by
        rw [List.filter_eq_nil_iff]
        intro a ha
        simp only [beq_iff_eq]
        intro hak
        exact h.1 (hx ▸ hak ▸ List.mem_map_of_mem Prod.fst ha)
      simp [List.filter_cons, hx, hrest]
    · simp only [List.filter_cons, beq_iff_eq, hx, if_false]
      exact ih h.2

theorem not_mem_filtered_keys (idx : Index) (p : String) :
    p ∉ (idx.filter (fun e => !(e.1 == p))).map Prod.fst := by
  intro hmem
  obtain ⟨e, he, hep⟩ := List.mem_map.mp hmem
  have := List.of_mem_filter he
  simp [hep] at this

theorem indexWF_replaceBucket (idx : Index) (p : String) (b : Bucket)
    (h : indexWF idx) (hb : bucketWF b) : indexWF (replaceBucket idx p b) := by
  obtain ⟨hkeys, hbuckets⟩ := h
  constructor
  · rw [replaceBucket, List.map_append]
    apply List.Nodup.append
    · exact hkeys.sublist ((List.filter_sublist idx).map Prod.fst)
    · simp
    · intro a ha hb2
      simp only [List.map_cons, List.map_nil, List.mem_singleton] at hb2
      exact not_mem_filtered_keys idx p (hb2 ▸ ha)
  · intro e he
    rw [replaceBucket, List.mem_append] at he
    rcases he with he | he
    · exact hbuckets e (List.mem_of_mem_filter he)
    · simp only [List.mem_singleton] at he
      rw [he]
      exact hb

theorem indexWF_deleteBucket (idx : Index) (p : String)
    (h : indexWF idx) : indexWF (deleteBucket idx p) := by
  obtain ⟨hkeys, hbuckets⟩ := h
  exact ⟨hkeys.sublist ((List.filter_sublist idx).map Prod.fst),
    fun e he => hbuckets e (List.mem_of_mem_filter he)⟩

theorem indexWF_step (idx : Index) (e : DocEvent)
    (h : indexWF idx) (he : eventWF e) : indexWF (step idx e) := by
  cases e with
  | load p ok b =>
    by_cases hok : ok = true
    · rw [step, if_pos hok]
      exact indexWF_replaceBucket idx p b h he
    · rw [step, if_neg hok]
      exact h
  | change p ok b =>
    by_cases hok : ok = true
    · rw [step, if_pos hok]
      exact indexWF_replaceBucket idx p b h he
    · rw [step, if_neg hok]
      exact h
  | delete p => exact indexWF_deleteBucket idx p h

theorem indexWF_run (es : List DocEvent) (idx : Index)
    (h : indexWF idx) (hes : ∀ e ∈ es, eventWF e) : indexWF (run es idx) := by
  induction es generalizing idx with
  | nil => exact h
  | cons e rest ih =>
    rw [run, List.foldl_cons]
    exact ih (step idx e) (indexWF_step idx e h (hes e (List.mem_cons_self e rest)))
      (fun x hx => hes x (List.mem_cons_of_mem e hx))

theorem tasksAt_len_le_one (idx : Index) (hw : indexWF idx) (p : String) (l : Nat) :
    (tasksAt idx p l).length ≤ 1 := by
  unfold tasksAt
  match hfe : idx.filter (fun e => e.1 == p) with
  | [] =>
    rw [hfe]
    simp
  | [e] =>
    rw [hfe]
    simp only [List.flatMap_cons, List.flatMap_nil, List.append_nil, List.length_map]
    apply filter_key_len_le_one
    have he : e ∈ idx :=
      List.mem_of_mem_filter (by rw [hfe]; exact List.mem_singleton_self e)
    exact hw.2 e he
  | e1 :: e2 :: rest =>
    exfalso
    have hle := filter_key_len_le_one idx p hw.1
    rw [hfe] at hle
    simp at hle

theorem summary_eq_total (idx : Index) :
    summary idx = (idx.flatMap (fun e => e.2)).length := by
  unfold summary
  induction idx with
  | nil => simp
  | cons e rest ih => simp [List.flatMap_cons, ih]

/-- C9: index invariant — starting from the empty index, any sequence
of load/change/delete event handling (whose buckets, coming from the
per-line parser, have distinct line keys) keeps the index well formed
with at most one task stored per (path, line) pair, and Summary equals
the total number of stored tasks across all paths. -/
theorem C9_index_invariant (es : List DocEvent)
    (h : ∀ e ∈ es, eventWF e) :
    indexWF (run es []) ∧
    (∀ p l, (tasksAt (run es []) p l).length ≤ 1) ∧
    summary (run es []) = ((run es []).flatMap (fun e => e.2)).length := by
  have hwf : indexWF (run es []) := indexWF_run es [] (by constructor <;> simp) h
  exact ⟨hwf, fun p l => tasksAt_len_le_one (run es []) hwf p l,
    summary_eq_total (run es [])⟩

/-- C9 witness: the invariant applied to a concrete event sequence
with loads, a change, an out-of-scope event and a delete. -/
theorem C9_witness :
    indexWF (run sampleEvents []) ∧
    (∀ p l, (tasksAt (run sampleEvents []) p l).length ≤ 1) ∧
    summary (run sampleEvents []) =
      ((run sampleEvents []).flatMap (fun e => e.2)).length :=
  C9_index_invariant sampleEvents (by decide)

end Notedown
